import Mathlib

/-!
Verification of the configuration resolver and dependency-graph builder of
`gitlab_pipeline_visualizer.py` (classes `GitLabCIParser` and
`GitLabPipelineVisualizer`).

The Python program works on YAML documents decoded into dynamically typed
dictionaries.  We embed those documents as an inductive `Yaml` value type and
represent Python dictionaries as insertion-ordered association lists with
unique keys (`List (String × _)`), which is how documents decoded from YAML
files behave.  Word characters, stage names and file paths are modelled over
Lean `String`/`Char` (the ASCII reading of Python's `\W`/`\d` classes).
-/

set_option autoImplicit false

namespace GLPV

/-- YAML values as produced by `yaml.safe_load`: scalars, sequences and
mappings.  Mappings are insertion-ordered association lists. -/
inductive Yaml where
  | nullV : Yaml
  | boolV (b : Bool) : Yaml
  | intV (n : Int) : Yaml
  | str (s : String) : Yaml
  | arr (xs : List Yaml) : Yaml
  | obj (kvs : List (String × Yaml)) : Yaml

/-- One decoded configuration document: the top-level mapping of a YAML file. -/
abbrev Config := List (String × Yaml)

/-- Python dictionary lookup (`d[k]` / `k in d` / `d.get(k)`) on the
association-list representation: the first entry with the given key. -/
def dictLookup {α : Type} (d : List (String × α)) (k : String) : Option α :=
  match d with
  | [] => none
  | (k₁, v) :: rest => if k₁ = k then some v else dictLookup rest k

/-- Removal of a key, as done by `config.pop('include')` on a Python
dictionary (keys are unique there, so removing every entry with the key
coincides with removing the single one). -/
def dictErase {α : Type} (d : List (String × α)) (k : String) : List (String × α) :=
  d.filter fun kv => kv.1 ≠ k

/-- Python dictionary-literal merge `{**base, **override}`: keys of `base`
first, in order, taking `override`'s value on conflict, followed by the keys
that appear only in `override`, in order. -/
def dictMerge {α : Type} (base override : List (String × α)) : List (String × α) :=
  (base.map fun kv => (kv.1, (dictLookup override kv.1).getD kv.2))
    ++ override.filter fun kv => (dictLookup base kv.1).isNone

/-- Word characters of the regex class `\w` (ASCII reading): letters, digits
and the underscore. -/
def isWordChar (c : Char) : Bool :=
  c.isAlphanum || c = '_'

/-- Scanner for the `\W+ -> _` part of `re.sub(r"\W+|^(?=\d)", "_", name)`:
every maximal run of non-word characters becomes one underscore.  The flag
records whether the previous character belonged to a run already replaced. -/
def collapseAux : Bool → List Char → List Char
  | _, [] => []
  | inRun, c :: cs =>
    if isWordChar c then c :: collapseAux false cs
    else if inRun then collapseAux true cs
    else '_' :: collapseAux true cs

/-- Replacement of every maximal run of non-word characters by a single
underscore. -/
def collapseNonWord (l : List Char) : List Char :=
  collapseAux false l

/-- Whole sanitization `re.sub(r"\W+|^(?=\d)", "_", name)` on the character
list: the zero-width `^(?=\d)` branch inserts an underscore at position 0
exactly when the string starts with a digit (a digit is a word character, so
the `\W+` branch cannot fire there first). -/
def sanitizeChars (l : List Char) : List Char :=
  match l with
  | [] => []
  | c :: _ => if c.isDigit then '_' :: collapseNonWord l else collapseNonWord l

/-- `GitLabCIParser.name_to_identifier`: convert a job name to a valid
Mermaid identifier. -/
def name_to_identifier (name : String) : String :=
  String.mk (sanitizeChars name.data)

theorem mem_collapseAux_isWordChar :
    ∀ (l : List Char) (b : Bool), ∀ c ∈ collapseAux b l, isWordChar c = true := by
  intro l
  induction l with
  | nil => intro b c hc; simp [collapseAux] at hc
  | cons c cs ih =>
    intro b d hd
    rw [collapseAux] at hd
    by_cases hw : isWordChar c
    · rw [if_pos hw] at hd
      rcases List.mem_cons.mp hd with h | h
      · exact h ▸ hw
      · exact ih false d h
    · rw [if_neg hw] at hd
      cases b with
      | true => exact ih true d (by simpa using hd)
      | false =>
        rcases List.mem_cons.mp (by simpa using hd) with h | h
        · subst h; decide
        · exact ih true d h

theorem collapseAux_of_allWord :
    ∀ (l : List Char) (b : Bool),
      (∀ c ∈ l, isWordChar c = true) → collapseAux b l = l := by
  intro l
  induction l with
  | nil => intro b _; rfl
  | cons c cs ih =>
    intro b h
    have hc : isWordChar c = true := h c (List.mem_cons_self c cs)
    rw [collapseAux, if_pos hc, ih false fun d hd => h d (List.mem_cons_of_mem c hd)]

theorem collapseNonWord_of_allWord (l : List Char)
    (h : ∀ c ∈ l, isWordChar c = true) : collapseNonWord l = l :=
  collapseAux_of_allWord l false h

theorem mem_sanitizeChars_isWordChar :
    ∀ (l : List Char), ∀ c ∈ sanitizeChars l, isWordChar c = true := by
  intro l c hc
  match l with
  | [] => simp [sanitizeChars] at hc
  | d :: ds =>
    simp only [sanitizeChars] at hc
    by_cases hd : d.isDigit
    · rw [if_pos hd] at hc
      rcases List.mem_cons.mp hc with h | h
      · subst h; decide
      · exact mem_collapseAux_isWordChar _ false c h
    · rw [if_neg hd] at hc
      exact mem_collapseAux_isWordChar _ false c hc

theorem sanitizeChars_head_not_digit :
    ∀ (l : List Char) (c : Char) (cs : List Char),
      sanitizeChars l = c :: cs → c.isDigit = false := by
  intro l c cs h
  match l with
  | [] => simp [sanitizeChars] at h
  | d :: ds =>
    simp only [sanitizeChars] at h
    by_cases hd : d.isDigit
    · rw [if_pos hd] at h
      cases h
      decide
    · rw [if_neg hd] at h
      rw [collapseNonWord, collapseAux] at h
      by_cases hw : isWordChar d
      · rw [if_pos hw] at h
        cases h
        simpa using hd
      · rw [if_neg hw, if_neg (by simp)] at h
        cases h
        decide

/-- Claim C7: the sanitization `name_to_identifier` (replace runs of non-word
characters with an underscore, prefix an underscore before a leading digit)
is idempotent: sanitizing an already-sanitized job name changes nothing. -/
theorem name_to_identifier_idempotent (n : String) :
    name_to_identifier (name_to_identifier n) = name_to_identifier n := by
  unfold name_to_identifier
  congr 1
  show sanitizeChars (sanitizeChars n.data) = sanitizeChars n.data
  cases hs : sanitizeChars n.data with
  | nil => rfl
  | cons c cs =>
    have hdig : c.isDigit = false := sanitizeChars_head_not_digit n.data c cs hs
    have hall : ∀ d ∈ c :: cs, isWordChar d = true := by
      intro d hd
      exact mem_sanitizeChars_isWordChar n.data d (hs ▸ hd)
    rw [sanitizeChars, if_neg (by simp [hdig]), collapseNonWord_of_allWord _ hall]

/-- One pipeline job as built by `GitLabCIParser.parse` (the unused
`dependencies` field of the Python dict is omitted; stage names are modelled
as strings). -/
structure Job where
  name : String
  identifier : String
  stage : String
  needs : List String
deriving DecidableEq

/-- Python `list.index` (`self.stages.index(job['stage'])`): index of the
first occurrence, `none` standing for the raised `ValueError`. -/
def listIndex (l : List String) (x : String) : Option Nat :=
  match l with
  | [] => none
  | y :: rest => if y = x then some 0 else (listIndex rest x).map (· + 1)

/-- The `stage_jobs` table of `build_dependency_graph`: identifiers of the
jobs of one stage, in job-table iteration order (the `defaultdict(list)`
append loop). -/
def stageJobs (jobs : List (String × Job)) (stage : String) : List String :=
  (jobs.filter fun p => p.2.stage = stage).map Prod.fst

/-- Dependency set of a job with no explicit needs: the `else` branch of
`build_dependency_graph` (look up the stage, take every job of the previous
stage when there is one, and catch the `ValueError` of an unknown stage as
an empty list). -/
def implicitDeps (jobs : List (String × Job)) (stages : List String) (stage : String) :
    List String :=
  match listIndex stages stage with
  | none => []
  | some i => if 0 < i then stageJobs jobs (stages.getD (i - 1) "") else []

/-- `GitLabPipelineVisualizer.build_dependency_graph`: per job, its explicit
`needs` when non-empty, its stage-implicit dependencies otherwise. -/
def build_dependency_graph (jobs : List (String × Job)) (stages : List String) :
    List (String × List String) :=
  jobs.map fun p =>
    (p.1, if p.2.needs = [] then implicitDeps jobs stages p.2.stage else p.2.needs)

theorem dictLookup_map {α β : Type} (F : String × α → β) :
    ∀ (l : List (String × α)) (k : String),
      dictLookup (l.map fun p => (p.1, F p)) k =
        (dictLookup l k).map fun v => F (k, v) := by
  intro l k
  induction l with
  | nil => rfl
  | cons p rest ih =>
    obtain ⟨k₁, v⟩ := p
    simp only [List.map_cons, dictLookup]
    by_cases h : k₁ = k
    · subst h; simp
    · simp [h, ih]

theorem dictLookup_build_dependency_graph (jobs : List (String × Job))
    (stages : List String) (jobId : String) :
    dictLookup (build_dependency_graph jobs stages) jobId =
      (dictLookup jobs jobId).map fun job =>
        if job.needs = [] then implicitDeps jobs stages job.stage else job.needs := by
  exact dictLookup_map
    (fun p => if p.2.needs = [] then implicitDeps jobs stages p.2.stage else p.2.needs)
    jobs jobId

/-- Claim C1: a job with an empty explicit needs sequence whose stage sits at
position `i` of the stage list is assigned the ordered sequence of all jobs
of the stage at position `i - 1` when `0 < i`, and the empty dependency set
when its stage is first. -/
theorem graph_implicit_stage_rule (jobs : List (String × Job)) (stages : List String)
    (jobId : String) (job : Job) (i : Nat)
    (hj : dictLookup jobs jobId = some job)
    (hn : job.needs = [])
    (hi : listIndex stages job.stage = some i) :
    dictLookup (build_dependency_graph jobs stages) jobId =
      some (if 0 < i then stageJobs jobs (stages.getD (i - 1) "") else []) := by
  rw [dictLookup_build_dependency_graph, hj, Option.map_some']
  rw [if_pos hn]
  unfold implicitDeps
  rw [hi]

/-- Claim C2: a job with a non-empty explicit needs sequence is assigned
exactly that sequence, order preserved and duplicates kept; the
stage-implicit rule is not consulted. -/
theorem graph_explicit_needs (jobs : List (String × Job)) (stages : List String)
    (jobId : String) (job : Job)
    (hj : dictLookup jobs jobId = some job)
    (hn : job.needs ≠ []) :
    dictLookup (build_dependency_graph jobs stages) jobId = some job.needs := by
  rw [dictLookup_build_dependency_graph, hj, Option.map_some']
  rw [if_neg hn]

/-- Claim C6: a job with empty explicit needs whose declared stage does not
appear in the stage list is assigned the empty dependency set (the caught
`ValueError` branch); no error escapes `build_dependency_graph`. -/
theorem graph_unknown_stage (jobs : List (String × Job)) (stages : List String)
    (jobId : String) (job : Job)
    (hj : dictLookup jobs jobId = some job)
    (hn : job.needs = [])
    (hs : listIndex stages job.stage = none) :
    dictLookup (build_dependency_graph jobs stages) jobId = some [] := by
  rw [dictLookup_build_dependency_graph, hj, Option.map_some']
  rw [if_pos hn]
  unfold implicitDeps
  rw [hs]

/-- Claim C9: the graph returned by `build_dependency_graph` has exactly the
job table's identifiers as its keys, in table order: every job receives an
entry and no other key appears. -/
theorem graph_keys_eq_job_keys (jobs : List (String × Job)) (stages : List String) :
    (build_dependency_graph jobs stages).map Prod.fst = jobs.map Prod.fst := by
  unfold build_dependency_graph
  rw [List.map_map]
  rfl

/-- Stage list and jobs of the spec's implicit-stage-dependency test. -/
def exStages : List String := ["build", "test", "deploy"]

def exBuild1 : Job :=
  { name := "build1", identifier := "build1", stage := "build", needs := [] }

def exTest1 : Job :=
  { name := "test1", identifier := "test1", stage := "test", needs := [] }

def exDeploy1 : Job :=
  { name := "deploy1", identifier := "deploy1", stage := "deploy", needs := [] }

def exJobs : List (String × Job) :=
  [("build1", exBuild1), ("test1", exTest1), ("deploy1", exDeploy1)]

/-- Deploy job of the explicit-needs test: `deploy1` declaring
`needs: [build1]`. -/
def exDeploy1N : Job :=
  { name := "deploy1", identifier := "deploy1", stage := "deploy", needs := ["build1"] }

def exJobsN : List (String × Job) :=
  [("build1", exBuild1), ("test1", exTest1), ("deploy1", exDeploy1N)]

/-- Job of the unknown-stage test: `stage: missing_stage`, no needs. -/
def exLost : Job :=
  { name := "lost", identifier := "lost", stage := "missing_stage", needs := [] }

theorem graph_implicit_stage_rule_witness :
    dictLookup (build_dependency_graph exJobs exStages) "test1" = some ["build1"] := by
  have h := graph_implicit_stage_rule exJobs exStages "test1" exTest1 1
    (by decide) (by decide) (by decide)
  simpa using h

theorem graph_explicit_needs_witness :
    dictLookup (build_dependency_graph exJobsN exStages) "deploy1" = some ["build1"] := by
  have h := graph_explicit_needs exJobsN exStages "deploy1" exDeploy1N
    (by decide) (by decide)
  simpa using h

theorem graph_unknown_stage_witness :
    dictLookup (build_dependency_graph (exJobs ++ [("lost", exLost)]) exStages) "lost"
      = some [] := by
  have h := graph_unknown_stage (exJobs ++ [("lost", exLost)]) exStages "lost" exLost
    (by decide) (by decide) (by decide)
  exact h

/-- Python `str()` as applied by `name_to_identifier` to a needs entry that
references a job through a YAML value.  Scalars render as CPython renders
them; a container value would render as its repr, abbreviated here to its
bracket shape (job references are names, never containers, and no property
below depends on the container text). -/
def pyStr : Yaml → String
  | .str s => s
  | .intV n => toString n
  | .boolV b => cond b "True" "False"
  | .nullV => "None"
  | .arr _ => "[...]"
  | .obj _ => "\x7b...\x7d"

/-- Contribution of one element of a job's `needs` list in
`GitLabCIParser.parse`: a plain string or a mapping with a `job` key yields
the referenced name's sanitized identifier, anything else is ignored. -/
def needEntry (need : Yaml) : Option String :=
  match need with
  | .str s => some (name_to_identifier s)
  | .obj kvs =>
    match dictLookup kvs "job" with
    | some v => some (name_to_identifier (pyStr v))
    | none => none
  | _ => none

/-- Needs sequence read from a job's `needs` value by
`GitLabCIParser.parse`: the per-element contributions in list order when the
value is a list (`isinstance(needs, list)`), nothing otherwise. -/
def extractNeeds : Yaml → List String
  | .arr xs => xs.filterMap needEntry
  | _ => []

/-- Job record built by `GitLabCIParser.parse` for one job-shaped top-level
entry (name, configuration mapping), given the pipeline's stage list.  The
stage defaults to the first stage, or to `"test"` when the stage list is
empty. -/
def mkJob (stages : List String) (name : String) (cfg : Config) : Job :=
  { name := name
  , identifier := name_to_identifier name
  , stage :=
      match dictLookup cfg "stage" with
      | some (.str s) => s
      | _ => stages.headD "test"
  , needs :=
      match dictLookup cfg "needs" with
      | some v => extractNeeds v
      | none => [] }

/-- Claim C8: when a job's configuration holds a `needs` list, the job's
needs sequence collects, in list order, the sanitized identifier of every
element that is a plain string or a mapping with a `job` key, and nothing
from an element of any other shape. -/
theorem parse_needs_shapes (stages : List String) (name : String) (cfg : Config)
    (xs : List Yaml)
    (hneeds : dictLookup cfg "needs" = some (.arr xs)) :
    (mkJob stages name cfg).needs = xs.filterMap needEntry
    ∧ (∀ s, needEntry (.str s) = some (name_to_identifier s))
    ∧ (∀ kvs v, dictLookup kvs "job" = some v →
        needEntry (.obj kvs) = some (name_to_identifier (pyStr v)))
    ∧ (∀ kvs, dictLookup kvs "job" = none → needEntry (.obj kvs) = none)
    ∧ needEntry .nullV = none
    ∧ (∀ b, needEntry (.boolV b) = none)
    ∧ (∀ n, needEntry (.intV n) = none)
    ∧ (∀ ys, needEntry (.arr ys) = none) := by
  refine ⟨?_, fun s => rfl, ?_, ?_, rfl, fun b => rfl, fun n => rfl, fun ys => rfl⟩
  · show (match dictLookup cfg "needs" with
      | some v => extractNeeds v
      | none => []) = xs.filterMap needEntry
    rw [hneeds]
    rfl
  · intro kvs v hv
    show (match dictLookup kvs "job" with
      | some v => some (name_to_identifier (pyStr v))
      | none => none) = some (name_to_identifier (pyStr v))
    rw [hv]
  · intro kvs hv
    show (match dictLookup kvs "job" with
      | some v => some (name_to_identifier (pyStr v))
      | none => none) = none
    rw [hv]

theorem parse_needs_shapes_witness :
    (mkJob ["build", "test"] "final"
        [("needs",
          .arr [.str "build:all", .obj [("job", .str "2nd job")], .intV 5, .arr []])]).needs
      = ["build_all", "_2nd_job"] := by
  have h := parse_needs_shapes ["build", "test"] "final"
    [("needs",
      .arr [.str "build:all", .obj [("job", .str "2nd job")], .intV 5, .arr []])]
    [.str "build:all", .obj [("job", .str "2nd job")], .intV 5, .arr []]
    rfl
  rw [h.1]
  rfl

/-- Claim C10: a `needs` entry that is present but not a list yields a job
with an empty needs sequence, and `build_dependency_graph` then applies the
stage-implicit rule to that job. -/
theorem parse_needs_not_list (stages : List String) (name : String) (cfg : Config)
    (v : Yaml)
    (hv : dictLookup cfg "needs" = some v)
    (hna : ∀ xs, v ≠ .arr xs) :
    (mkJob stages name cfg).needs = []
    ∧ ∀ (jobs : List (String × Job)) (jobId : String),
        dictLookup jobs jobId = some (mkJob stages name cfg) →
        dictLookup (build_dependency_graph jobs stages) jobId =
          some (implicitDeps jobs stages (mkJob stages name cfg).stage) := by
  have hempty : (mkJob stages name cfg).needs = [] := by
    show (match dictLookup cfg "needs" with
      | some v => extractNeeds v
      | none => []) = []
    rw [hv]
    match v, hna with
    | .nullV, _ => rfl
    | .boolV b, _ => rfl
    | .intV n, _ => rfl
    | .str s, _ => rfl
    | .obj kvs, _ => rfl
    | .arr xs, hna => exact absurd rfl (hna xs)
  refine ⟨hempty, ?_⟩
  intro jobs jobId hj
  rw [dictLookup_build_dependency_graph, hj, Option.map_some']
  rw [if_pos hempty]

theorem parse_needs_not_list_witness :
    (mkJob ["build", "test"] "t1" [("stage", .str "test"), ("needs", .str "b1")]).needs = []
    ∧ dictLookup
        (build_dependency_graph
          [("b1", mkJob ["build", "test"] "b1" [("stage", .str "build")]),
           ("t1", mkJob ["build", "test"] "t1" [("stage", .str "test"), ("needs", .str "b1")])]
          ["build", "test"])
        "t1"
      = some ["b1"] := by
  have h := parse_needs_not_list ["build", "test"] "t1"
    [("stage", .str "test"), ("needs", .str "b1")] (.str "b1")
    rfl (fun xs h => by cases h)
  refine ⟨h.1, ?_⟩
  have h2 := h.2
    [("b1", mkJob ["build", "test"] "b1" [("stage", .str "build")]),
     ("t1", mkJob ["build", "test"] "t1" [("stage", .str "test"), ("needs", .str "b1")])]
    "t1" (by rfl)
  rw [h2]
  rfl

/-- State of the local filesystem the resolver reads from: resolved absolute
path of each readable YAML file mapped to its decoded top-level mapping
(`load_yaml`; a file absent here is `include_path.exists() == False`). -/
abbrev FileSystem := List (String × Config)

/-- Python `s.lstrip('/')`. -/
def lstripSlash (s : String) : String :=
  String.mk (s.data.dropWhile fun c => c = '/')

/-- Resolution of an include path against the repository base directory:
`self.base_dir / inc.lstrip('/')`, with paths kept abstract (the additional
`Path.resolve()` normalization is the identity on already-absolute
normalized paths). -/
def resolvePath (baseDir inc : String) : String :=
  baseDir ++ "/" ++ lstripSlash inc

/-- Normalization of the `include` value to a list:
`if not isinstance(includes, list): includes = [includes]`. -/
def normIncludes : Yaml → List Yaml
  | .arr xs => xs
  | v => [v]

/-- Classification of one include entry. -/
inductive IncTarget where
  /-- A plain path string, or a mapping with a `local` path string. -/
  | path (s : String) : IncTarget
  /-- Skipped entry: a mapping without `local` (remote/project/template, warned)
  or any non-string non-mapping value (bare `continue`). -/
  | skip : IncTarget
  /-- A mapping whose `local` value is not a string: `inc['local'].lstrip('/')`
  raises `AttributeError`, which propagates. -/
  | err : IncTarget

/-- How `resolve_includes` treats one entry of the include list. -/
def includeTarget : Yaml → IncTarget
  | .str s => .path s
  | .obj kvs =>
    match dictLookup kvs "local" with
    | some (.str s) => .path s
    | some _ => .err
    | none => .skip
  | _ => .skip

mutual

/-- `GitLabCIParser.resolve_includes`, with the shared mutable visited set
threaded explicitly and recursion bounded by fuel: `none` is an aborted run
(fuel exhausted, or a raised exception), `some` the returned merged document
together with the final visited set. -/
def resolve_includes (fs : FileSystem) (baseDir : String)
    (fuel : Nat) (config : Config) (visited : List String) :
    Option (Config × List String) :=
  match fuel with
  | 0 => none
  | fuel + 1 =>
    match dictLookup config "include" with
    | none => some (config, visited)
    | some incVal =>
      resolveIncList fs baseDir fuel (normIncludes incVal)
        (dictErase config "include") visited
termination_by (fuel, 0)

/-- The `for inc in includes` loop of `resolve_includes`: processes the
include entries in declared order, threading the partially merged
configuration and the visited set. -/
def resolveIncList (fs : FileSystem) (baseDir : String)
    (fuel : Nat) (incs : List Yaml) (config : Config) (visited : List String) :
    Option (Config × List String) :=
  match incs with
  | [] => some (config, visited)
  | inc :: rest =>
    match includeTarget inc with
    | .skip => resolveIncList fs baseDir fuel rest config visited
    | .err => none
    | .path relPath =>
      if resolvePath baseDir relPath ∈ visited then
        resolveIncList fs baseDir fuel rest config visited
      else
        match dictLookup fs (resolvePath baseDir relPath) with
        | none =>
          resolveIncList fs baseDir fuel rest config (resolvePath baseDir relPath :: visited)
        | some doc =>
          match resolve_includes fs baseDir fuel doc (resolvePath baseDir relPath :: visited) with
          | none => none
          | some (resolvedInc, visited₂) =>
            resolveIncList fs baseDir fuel rest (dictMerge resolvedInc config) visited₂
termination_by (fuel, incs.length + 1)

end

theorem dictLookup_append {α : Type} (l₁ l₂ : List (String × α)) (k : String) :
    dictLookup (l₁ ++ l₂) k =
      match dictLookup l₁ k with
      | some v => some v
      | none => dictLookup l₂ k := by
  induction l₁ with
  | nil => rfl
  | cons p rest ih =>
    obtain ⟨k₁, v⟩ := p
    by_cases h : k₁ = k
    · simp [dictLookup, h]
    · simp [dictLookup, h, ih]

theorem dictLookup_dictErase {α : Type} (d : List (String × α)) (k : String) :
    dictLookup (dictErase d k) k = none := by
  induction d with
  | nil => rfl
  | cons p rest ih =>
    obtain ⟨k₁, v⟩ := p
    by_cases h : k₁ = k
    · simpa [dictErase, List.filter, h] using ih
    · simpa [dictErase, List.filter, h, dictLookup] using ih

theorem dictLookup_dictMerge {α : Type} (a b : List (String × α)) (k : String) :
    dictLookup (dictMerge a b) k =
      match dictLookup b k with
      | some v => some v
      | none => dictLookup a k := by
  unfold dictMerge
  rw [dictLookup_append]
  rw [dictLookup_map fun kv => (dictLookup b kv.1).getD kv.2]
  have hfilter : dictLookup (b.filter fun kv => (dictLookup a kv.1).isNone) k =
      if (dictLookup a k).isNone then dictLookup b k else none := by
    induction b with
    | nil => simp [dictLookup]
    | cons p rest ih =>
      obtain ⟨k₁, v⟩ := p
      by_cases h : k₁ = k
      · subst h
        by_cases ha : (dictLookup a k₁).isNone
        · simp [List.filter, ha, dictLookup]
        · simpa [List.filter, ha, dictLookup] using ih
      · by_cases ha : (dictLookup a k₁).isNone
        · simpa [List.filter, ha, dictLookup, h] using ih
        · simpa [List.filter, ha, dictLookup, h] using ih
  cases hb : dictLookup b k with
  | some v =>
    cases ha : dictLookup a k with
    | some w => simp [ha, hb]
    | none => simp [hfilter, ha, hb]
  | none =>
    cases ha : dictLookup a k with
    | some w => simp [ha, hb]
    | none => simp [hfilter, ha, hb]

theorem resolver_no_include_invariant (fs : FileSystem) (baseDir : String) :
    ∀ fuel : Nat,
      (∀ (config : Config) (visited : List String) (res : Config) (vis : List String),
        resolve_includes fs baseDir fuel config visited = some (res, vis) →
        dictLookup res "include" = none)
      ∧ (∀ (incs : List Yaml) (config : Config) (visited : List String)
          (res : Config) (vis : List String),
        dictLookup config "include" = none →
        resolveIncList fs baseDir fuel incs config visited = some (res, vis) →
        dictLookup res "include" = none) := by
  intro fuel
  induction fuel with
  | zero =>
    constructor
    · intro config visited res vis h
      rw [resolve_includes] at h
      exact absurd h (by simp)
    · intro incs
      induction incs with
      | nil =>
        intro config visited res vis hc h
        rw [resolveIncList] at h
        cases h
        exact hc
      | cons inc rest ih =>
        intro config visited res vis hc h
        rw [resolveIncList] at h
        split at h
        · exact ih config visited res vis hc h
        · exact absurd h (by simp)
        · split at h
          · exact ih config visited res vis hc h
          · split at h
            · exact ih config (_ :: visited) res vis hc h
            · rw [resolve_includes] at h
              exact absurd h (by simp)
  | succ fuel ih =>
    have hP : ∀ (config : Config) (visited : List String) (res : Config)
        (vis : List String),
        resolve_includes fs baseDir (fuel + 1) config visited = some (res, vis) →
        dictLookup res "include" = none := by
      intro config visited res vis h
      rw [resolve_includes] at h
      split at h
      · rename_i heq
        cases h
        exact heq
      · exact ih.2 _ _ _ _ _ (dictLookup_dictErase config "include") h
    constructor
    · exact hP
    · intro incs
      induction incs with
      | nil =>
        intro config visited res vis hc h
        rw [resolveIncList] at h
        cases h
        exact hc
      | cons inc rest ihr =>
        intro config visited res vis hc h
        rw [resolveIncList] at h
        split at h
        · exact ihr config visited res vis hc h
        · exact absurd h (by simp)
        · split at h
          · exact ihr config visited res vis hc h
          · split at h
            · exact ihr config (_ :: visited) res vis hc h
            · split at h
              · exact absurd h (by simp)
              · rename_i resolvedInc visited₂ heq
                refine ihr _ _ res vis ?_ h
                rw [dictLookup_dictMerge]
                rw [hP _ _ _ _ heq, hc]

/-- Claim C5: for every input document and every state of the include files,
a successful `resolve_includes` run returns a mapping with no `include` key:
the key is removed from the root document before its includes are processed,
and every transitively included document is resolved (hence stripped of its
own `include` key) before being merged in. -/
theorem resolve_includes_no_include_key (fs : FileSystem) (baseDir : String)
    (fuel : Nat) (config : Config) (visited : List String)
    (res : Config) (vis : List String)
    (h : resolve_includes fs baseDir fuel config visited = some (res, vis)) :
    dictLookup res "include" = none :=
  (resolver_no_include_invariant fs baseDir fuel).1 config visited res vis h

theorem resolve_includes_no_include_key_witness :
    dictLookup [("job1", Yaml.nullV)] "include" = none := by
  exact resolve_includes_no_include_key [] "" 1
    [("include", Yaml.str "lib.yml"), ("job1", Yaml.nullV)] []
    [("job1", Yaml.nullV)] ["/lib.yml"]
    (by simp [resolve_includes, resolveIncList, dictLookup, dictErase, normIncludes,
      includeTarget, resolvePath, lstripSlash])

/-- Claim C4: merging one included file into the including document is a
shallow top-level override in which the including document wins: the result
is `{**resolvedIncluded, **doc}`, so on every key the root's value is kept
when the root declares it and the included file's value survives otherwise. -/
theorem resolve_includes_override_direction (fs : FileSystem) (baseDir rel p : String)
    (root doc : Config) (visited : List String) (fuel : Nat)
    (hP : resolvePath baseDir rel = p)
    (hroot : dictLookup root "include" = some (.str rel))
    (hnv : p ∉ visited)
    (hfs : dictLookup fs p = some doc)
    (hdoc : dictLookup doc "include" = none) :
    resolve_includes fs baseDir (fuel + 2) root visited
      = some (dictMerge doc (dictErase root "include"), p :: visited)
    ∧ (∀ k v, dictLookup (dictErase root "include") k = some v →
        dictLookup (dictMerge doc (dictErase root "include")) k = some v)
    ∧ (∀ k, dictLookup (dictErase root "include") k = none →
        dictLookup (dictMerge doc (dictErase root "include")) k = dictLookup doc k) := by
  have hinner : resolve_includes fs baseDir (fuel + 1) doc (p :: visited)
      = some (doc, p :: visited) := by
    rw [resolve_includes, hdoc]
  refine ⟨?_, ?_, ?_⟩
  · rw [resolve_includes]
    rw [hroot]
    show resolveIncList fs baseDir (fuel + 1) [.str rel] (dictErase root "include") visited
      = _
    rw [resolveIncList]
    show (if resolvePath baseDir rel ∈ visited then _ else _) = _
    rw [hP, if_neg hnv, hfs]
    simp only [hinner]
    show resolveIncList fs baseDir (fuel + 1) []
        (dictMerge doc (dictErase root "include")) (p :: visited) = _
    rw [resolveIncList]
  · intro k v hk
    rw [dictLookup_dictMerge, hk]
  · intro k hk
    rw [dictLookup_dictMerge, hk]

theorem resolve_includes_override_direction_witness :
    resolve_includes
        [("/repo/inc.yml", [("a", Yaml.intV 0), ("b", Yaml.intV 2)])] "/repo" 2
        [("include", Yaml.str "inc.yml"), ("a", Yaml.intV 1)] []
      = some ([("a", Yaml.intV 1), ("b", Yaml.intV 2)], ["/repo/inc.yml"]) := by
  have h := resolve_includes_override_direction
    [("/repo/inc.yml", [("a", Yaml.intV 0), ("b", Yaml.intV 2)])]
    "/repo" "inc.yml" "/repo/inc.yml"
    [("include", Yaml.str "inc.yml"), ("a", Yaml.intV 1)]
    [("a", Yaml.intV 0), ("b", Yaml.intV 2)]
    [] 0 rfl rfl (by simp) rfl rfl
  rw [h.1]
  rfl

/-- Claim C3: include resolution terminates on the cyclic include graph in
which file A includes file B and file B includes file A.  Starting from A's
document with an empty visited set, any fuel of at least three steps returns
(so the recursion is over well before the fuel runs out), the second
encounter of B's path is skipped by the visited-set guard instead of being
recursed into, and the merged mapping holds each file's unique top-level key
exactly once. -/
theorem resolve_includes_cycle_terminates (fs : FileSystem)
    (baseDir relA relB pA pB aKey bKey : String) (va vb : Yaml)
    (hPA : resolvePath baseDir relA = pA) (hPB : resolvePath baseDir relB = pB)
    (hAB : pA ≠ pB)
    (hKa : aKey ≠ "include") (hKb : bKey ≠ "include") (hKab : aKey ≠ bKey)
    (hfsA : dictLookup fs pA = some [("include", .str relB), (aKey, va)])
    (hfsB : dictLookup fs pB = some [("include", .str relA), (bKey, vb)]) :
    ∀ fuel : Nat,
      resolve_includes fs baseDir (fuel + 3) [("include", .str relB), (aKey, va)] []
        = some ([(aKey, va), (bKey, vb)], [pA, pB]) := by
  intro fuel
  have herA : dictErase [("include", Yaml.str relB), (aKey, va)] "include"
      = [(aKey, va)] := by
    simp [dictErase, List.filter, hKa]
  have herB : dictErase [("include", Yaml.str relA), (bKey, vb)] "include"
      = [(bKey, vb)] := by
    simp [dictErase, List.filter, hKb]
  have hm₁ : dictMerge [(aKey, va)] [(bKey, vb)] = [(aKey, va), (bKey, vb)] := by
    simp [dictMerge, dictLookup, List.filter, Ne.symm hKab, hKab]
  have hm₂ : dictMerge [(aKey, va), (bKey, vb)] [(aKey, va)]
      = [(aKey, va), (bKey, vb)] := by
    simp [dictMerge, dictLookup, List.filter, Ne.symm hKab, hKab]
  have h₃ : resolve_includes fs baseDir (fuel + 1)
      [("include", Yaml.str relB), (aKey, va)] [pA, pB]
      = some ([(aKey, va)], [pA, pB]) := by
    rw [resolve_includes]
    rw [show dictLookup [("include", Yaml.str relB), (aKey, va)] "include"
        = some (Yaml.str relB) from rfl]
    show resolveIncList fs baseDir fuel [.str relB]
        (dictErase [("include", Yaml.str relB), (aKey, va)] "include") [pA, pB] = _
    rw [herA, resolveIncList]
    show (if resolvePath baseDir relB ∈ [pA, pB] then _ else _) = _
    rw [hPB, if_pos (by simp), resolveIncList]
  have h₂ : resolve_includes fs baseDir (fuel + 2)
      [("include", Yaml.str relA), (bKey, vb)] [pB]
      = some ([(aKey, va), (bKey, vb)], [pA, pB]) := by
    rw [resolve_includes]
    rw [show dictLookup [("include", Yaml.str relA), (bKey, vb)] "include"
        = some (Yaml.str relA) from rfl]
    show resolveIncList fs baseDir (fuel + 1) [.str relA]
        (dictErase [("include", Yaml.str relA), (bKey, vb)] "include") [pB] = _
    rw [herB, resolveIncList]
    show (if resolvePath baseDir relA ∈ [pB] then _ else _) = _
    rw [hPA, if_neg (by simp [hAB]), hfsA]
    simp only [h₃]
    show resolveIncList fs baseDir (fuel + 1) []
        (dictMerge [(aKey, va)] [(bKey, vb)]) [pA, pB] = _
    rw [hm₁, resolveIncList]
  rw [resolve_includes]
  rw [show dictLookup [("include", Yaml.str relB), (aKey, va)] "include"
      = some (Yaml.str relB) from rfl]
  show resolveIncList fs baseDir (fuel + 2) [.str relB]
      (dictErase [("include", Yaml.str relB), (aKey, va)] "include") [] = _
  rw [herA, resolveIncList]
  show (if resolvePath baseDir relB ∈ ([] : List String) then _ else _) = _
  rw [hPB, if_neg (List.not_mem_nil pB), hfsB]
  simp only [h₂]
  show resolveIncList fs baseDir (fuel + 2) []
      (dictMerge [(aKey, va), (bKey, vb)] [(aKey, va)]) [pA, pB] = _
  rw [hm₂, resolveIncList]

theorem resolve_includes_cycle_terminates_witness :
    resolve_includes
        [("/r/a.yml", [("include", Yaml.str "b.yml"), ("a_key", Yaml.intV 1)]),
         ("/r/b.yml", [("include", Yaml.str "a.yml"), ("b_key", Yaml.intV 2)])]
        "/r" 3
        [("include", Yaml.str "b.yml"), ("a_key", Yaml.intV 1)] []
      = some ([("a_key", Yaml.intV 1), ("b_key", Yaml.intV 2)], ["/r/a.yml", "/r/b.yml"]) := by
  exact resolve_includes_cycle_terminates
    [("/r/a.yml", [("include", Yaml.str "b.yml"), ("a_key", Yaml.intV 1)]),
     ("/r/b.yml", [("include", Yaml.str "a.yml"), ("b_key", Yaml.intV 2)])]
    "/r" "a.yml" "b.yml" "/r/a.yml" "/r/b.yml" "a_key" "b_key"
    (Yaml.intV 1) (Yaml.intV 2)
    rfl rfl (by decide) (by decide) (by decide) (by decide) rfl rfl 0

end GLPV
